import Mathlib

/-!
Shallow embedding of the selection-merging and table-materialization engine
(`SheetCreationUtils` and `GlobalCellSelection`) of this repository, together
with theorems checking the natural-language specification against it.

JavaScript values that flow through the merge are modelled by `CellValue`;
JavaScript objects (string-keyed records) by association lists with unique
keys (`JsObj`); the `||` operator by `jsOr`; template-literal number
formatting by the decimal renderer `natToString`.
-/

/-- Model of a JavaScript value stored in a cell: a string, a number, a
boolean, or null (which also stands for `undefined`, since the code only
ever distinguishes them through truthiness). -/
inductive CellValue where
  | str (s : String)
  | num (n : Int)
  | boolean (b : Bool)
  | null
deriving DecidableEq, Repr

/-- JavaScript truthiness of a `CellValue`: empty string, zero, `false` and
`null`/`undefined` are falsy. -/
def CellValue.truthy : CellValue → Bool
  | .str s => s ≠ ""
  | .num n => n ≠ 0
  | .boolean b => b
  | .null => false

/-- JavaScript `x || y` on cell values. -/
def jsOr (x y : CellValue) : CellValue :=
  if x.truthy then x else y

/-- Lookup in a JavaScript object modelled as an association list: returns
the value at the first matching key (keys are unique by construction). -/
def JsObj.get {α : Type} : List (String × α) → String → Option α
  | [], _ => none
  | (k', v) :: rest, k => if k' = k then some v else JsObj.get rest k

/-- Reading a JavaScript object property: an absent key yields `undefined`,
modelled as `CellValue.null` (the code only inspects the result through
truthiness, where the two coincide). -/
def JsObj.getV (o : List (String × CellValue)) (k : String) : CellValue :=
  (JsObj.get o k).getD .null

/-- JavaScript property assignment `o[k] = v`: overwrites the first
occurrence of the key in place, otherwise appends the new key at the end
(JavaScript objects preserve insertion order). -/
def JsObj.set {α : Type} : List (String × α) → String → α → List (String × α)
  | [], k, v => [(k, v)]
  | (k', v') :: rest, k, v =>
      if k' = k then (k, v) :: rest else (k', v') :: JsObj.set rest k v

theorem JsObj.get_set_self {α : Type} (o : List (String × α)) (k : String) (v : α) :
    JsObj.get (JsObj.set o k v) k = some v := by
  induction o with
  | nil => simp [JsObj.set, JsObj.get]
  | cons p rest ih =>
    by_cases h : p.1 = k
    · simp [JsObj.set, JsObj.get, h]
    · simp [JsObj.set, JsObj.get, h, ih]

theorem JsObj.get_set_ne {α : Type} (o : List (String × α)) (k k' : String) (v : α)
    (h : k ≠ k') : JsObj.get (JsObj.set o k v) k' = JsObj.get o k' := by
  induction o with
  | nil => simp [JsObj.set, JsObj.get, h]
  | cons p rest ih =>
    by_cases hp : p.1 = k
    · simp [JsObj.set, JsObj.get, hp, h]
    · simp only [JsObj.set, JsObj.get, hp, if_false]
      by_cases hp' : p.1 = k'
      · simp [hp']
      · simp [hp', ih]

/-- Keys of `JsObj.set o k v`: unchanged when `k` was already present,
otherwise the new key is appended. -/
theorem JsObj.set_keys_of_not_mem {α : Type} (o : List (String × α)) (k : String) (v : α)
    (h : JsObj.get o k = none) :
    JsObj.set o k v = o ++ [(k, v)] := by
  induction o with
  | nil => simp [JsObj.set]
  | cons p rest ih =>
    by_cases hp : p.1 = k
    · simp [JsObj.get, hp] at h
    · simp only [JsObj.get, hp, if_false] at h
      simp [JsObj.set, hp, ih h]

theorem JsObj.get_eq_none_of_not_mem_keys {α : Type} (o : List (String × α)) (k : String)
    (h : k ∉ o.map (·.1)) : JsObj.get o k = none := by
  induction o with
  | nil => simp [JsObj.get]
  | cons p rest ih =>
    simp only [List.map_cons, List.mem_cons] at h
    push_neg at h
    have h1 : p.1 ≠ k := fun hk => h.1 hk.symm
    simp [JsObj.get, h1, ih h.2]

/-! ### Decimal rendering of naturals

`natToString` models the JavaScript template literal interpolation of a
nonnegative integer counter (base-10, no sign, no grouping). A fuel-based
recursion keeps the definition structurally reducible; the fuel `n + 1`
always suffices. -/

/-- Character for a decimal digit `d < 10`. -/
def digitChr (d : Nat) : Char := Char.ofNat (48 + d)

/-- Fuel-based accumulation of the decimal digits of `n`, most significant
first. -/
def natToCharsAux : Nat → Nat → List Char
  | 0, _ => []
  | fuel + 1, n =>
      if n < 10 then [digitChr n]
      else natToCharsAux fuel (n / 10) ++ [digitChr (n % 10)]

/-- Decimal digit characters of `n`, most significant first. -/
def natToChars (n : Nat) : List Char := natToCharsAux (n + 1) n

/-- Decimal string rendering of `n`, as produced by a JavaScript template
literal for a nonnegative integer. -/
def natToString (n : Nat) : String := String.mk (natToChars n)

/-- Decimal evaluation of a digit-character list, used to invert
`natToChars`. -/
def charsToNat (cs : List Char) : Nat :=
  cs.foldl (fun a c => 10 * a + (c.toNat - 48)) 0

theorem digitChr_toNat {d : Nat} (h : d < 10) : (digitChr d).toNat = 48 + d := by
  interval_cases d <;> rfl

theorem charsToNat_append (xs ys : List Char) :
    charsToNat (xs ++ ys) = ys.foldl (fun a c => 10 * a + (c.toNat - 48)) (charsToNat xs) := by
  simp [charsToNat, List.foldl_append]

theorem natToCharsAux_spec (n : Nat) : ∀ fuel, n < fuel →
    natToCharsAux fuel n = natToChars n ∧ charsToNat (natToChars n) = n := by
  induction n using Nat.strong_induction_on with
  | _ n ih =>
    intro fuel hfuel
    match fuel, hfuel with
    | fuel + 1, hfuel =>
      by_cases h10 : n < 10
      · constructor
        · simp [natToCharsAux, natToChars, h10]
        · simp [natToChars, natToCharsAux, h10, charsToNat, digitChr_toNat h10]
      · have hdiv : n / 10 < n := Nat.div_lt_self (by omega) (by omega)
        have hdivfuel : n / 10 < fuel := by omega
        have hdivself : n / 10 < n / 10 + 1 := by omega
        have h1 := ih (n / 10) hdiv fuel hdivfuel
        have h2 := ih (n / 10) hdiv (n / 10 + 1) hdivself
        have hmod : n % 10 < 10 := Nat.mod_lt _ (by omega)
        constructor
        · show natToCharsAux (fuel + 1) n = natToCharsAux (n + 1) n
          simp only [natToCharsAux, h10, if_false]
          rw [h1.1, (ih (n / 10) hdiv n (by omega)).1]
        · have hrepr : natToChars n = natToChars (n / 10) ++ [digitChr (n % 10)] := by
            show natToCharsAux (n + 1) n = _
            simp only [natToCharsAux, h10, if_false]
            congr 1
            exact (ih (n / 10) hdiv n (by omega)).1
          rw [hrepr, charsToNat_append, (ih (n / 10) hdiv (n / 10 + 1) hdivself).2]
          simp [digitChr_toNat hmod]
          omega

theorem charsToNat_natToChars (n : Nat) : charsToNat (natToChars n) = n :=
  (natToCharsAux_spec n (n + 1) (by omega)).2

theorem natToString_injective : Function.Injective natToString := by
  intro m n h
  have : natToChars m = natToChars n := congrArg String.data h
  calc m = charsToNat (natToChars m) := (charsToNat_natToChars m).symm
    _ = charsToNat (natToChars n) := by rw [this]
    _ = n := charsToNat_natToChars n

theorem natToChars_ne_nil (n : Nat) : natToChars n ≠ [] := by
  show natToCharsAux (n + 1) n ≠ []
  by_cases h10 : n < 10 <;> simp [natToCharsAux, h10]

theorem natToString_length_pos (n : Nat) : 0 < (natToString n).length := by
  have := natToChars_ne_nil n
  simp only [natToString, String.length]
  cases hc : natToChars n with
  | nil => exact absurd hc this
  | cons c cs => simp

/-! ### Sanitization and candidate column ids

From `SheetCreationUtils.convertGlobalSelectionData`: the table name is
sanitized with `replace(/[^a-zA-Z0-9_]/g, '_')`; a duplicate column id
`base` is retried as `base_1`, `base_2`, ... until unused. -/

/-- One character of the table-name sanitization: characters outside
`[a-zA-Z0-9_]` are replaced by an underscore. -/
def sanitizeChar (c : Char) : Char :=
  if ('a' ≤ c ∧ c ≤ 'z') ∨ ('A' ≤ c ∧ c ≤ 'Z') ∨ ('0' ≤ c ∧ c ≤ '9') ∨ c = '_' then c
  else '_'

/-- `tableName.replace(/[^a-zA-Z0-9_]/g, '_')`: every character is mapped
through `sanitizeChar` (written over the character list so that concrete
instances evaluate by kernel reduction). -/
def sanitizeTableName (s : String) : String := String.mk (s.data.map sanitizeChar)

/-- The `k`-th candidate for a column id with base name `base` (the base
itself for `k = 0`, then `base_1`, `base_2`, ...). The candidate label
computed by the source is the same string. -/
def candidateColumnId (base : String) (k : Nat) : String :=
  if k = 0 then base else base ++ "_" ++ natToString k

theorem candidateColumnId_injective (base : String) :
    Function.Injective (candidateColumnId base) := by
  have hlen : ∀ k, k ≠ 0 →
      (candidateColumnId base k).length = base.length + 1 + (natToString k).length := by
    intro k hk
    simp only [candidateColumnId, hk, if_false, String.length_append]
    have h1 : "_".length = 1 := rfl
    omega
  intro i j h
  by_cases hi : i = 0 <;> by_cases hj : j = 0
  · omega
  · exfalso
    have h1 := hlen j hj
    have h2 := natToString_length_pos j
    rw [← h, candidateColumnId, if_pos hi] at h1
    omega
  · exfalso
    have h1 := hlen i hi
    have h2 := natToString_length_pos i
    rw [h, candidateColumnId, if_pos hj] at h1
    omega
  · simp only [candidateColumnId, hi, hj, if_false] at h
    have hdata : (base ++ "_" ++ natToString i).data = (base ++ "_" ++ natToString j).data := by
      rw [h]
    simp only [String.data_append] at hdata
    have hc := List.append_cancel_left hdata
    exact natToString_injective (String.ext hc)

/-- First-free scan of the `while (usedColumnIds.has(columnId))` loop,
starting at candidate index `k`. The fuel `used.length + 1` supplied by
`firstFreeIndex` always suffices to reach a free candidate (pigeonhole),
so the fuel-0 fallback is unreachable. -/
def firstFreeIndexGo (used : List String) (base : String) : Nat → Nat → Nat
  | 0, k => k
  | fuel + 1, k =>
      if used.contains (candidateColumnId base k) then firstFreeIndexGo used base fuel (k + 1)
      else k

/-- Index of the first candidate column id not in `used`, i.e. the value of
the counter at which the source's `while` loop stops. -/
def firstFreeIndex (used : List String) (base : String) : Nat :=
  firstFreeIndexGo used base (used.length + 1) 0

/-- Among the candidates `0, ..., used.length` at least one is free: the
candidates are pairwise distinct strings while `used` has only
`used.length` elements. -/
theorem exists_free_candidate (used : List String) (base : String) :
    ∃ j, j ≤ used.length ∧ candidateColumnId base j ∉ used := by
  by_contra hall
  push_neg at hall
  have hsub : ((List.range (used.length + 1)).map (candidateColumnId base)) ⊆ used := by
    intro x hx
    simp only [List.mem_map, List.mem_range] at hx
    obtain ⟨j, hj, rfl⟩ := hx
    exact hall j (by omega)
  have hnodup : ((List.range (used.length + 1)).map (candidateColumnId base)).Nodup :=
    (List.nodup_range _).map (candidateColumnId_injective base)
  have := (hnodup.subperm hsub).length_le
  simp at this

theorem firstFreeIndexGo_spec (used : List String) (base : String) :
    ∀ fuel k, (∃ j, j < fuel ∧ candidateColumnId base (k + j) ∉ used) →
      k ≤ firstFreeIndexGo used base fuel k ∧
      candidateColumnId base (firstFreeIndexGo used base fuel k) ∉ used ∧
      ∀ m, k ≤ m → m < firstFreeIndexGo used base fuel k →
        candidateColumnId base m ∈ used := by
  intro fuel
  induction fuel with
  | zero =>
    intro k ⟨j, hj, _⟩
    omega
  | succ fuel ih =>
    intro k ⟨j, hj, hfree⟩
    cases hk : used.contains (candidateColumnId base k) with
    | true =>
      have hkmem : candidateColumnId base k ∈ used := by
        simpa using hk
      have hj0 : j ≠ 0 := by
        intro h0
        rw [h0] at hfree
        simp at hfree
        exact hfree hkmem
      have hrec := ih (k + 1) ⟨j - 1, by omega, by
        have : k + 1 + (j - 1) = k + j := by omega
        rw [this]
        exact hfree⟩
      have heq : firstFreeIndexGo used base (fuel + 1) k =
          firstFreeIndexGo used base fuel (k + 1) := by
        simp only [firstFreeIndexGo]
        rw [hk]
        simp
      rw [heq]
      refine ⟨by omega, hrec.2.1, ?_⟩
      intro m hm hm'
      by_cases hmk : m = k
      · rw [hmk]; exact hkmem
      · exact hrec.2.2 m (by omega) hm'
    | false =>
      have heq : firstFreeIndexGo used base (fuel + 1) k = k := by
        simp only [firstFreeIndexGo]
        rw [hk]
        simp
      rw [heq]
      refine ⟨le_refl k, by simpa using hk, ?_⟩
      intro m hm hm'
      omega

/-- The source's duplicate-id loop stops at the first free candidate: the
resolved index points at a candidate not in `used`, and every earlier
candidate is in `used`. -/
theorem firstFreeIndex_spec (used : List String) (base : String) :
    candidateColumnId base (firstFreeIndex used base) ∉ used ∧
    ∀ m, m < firstFreeIndex used base → candidateColumnId base m ∈ used := by
  obtain ⟨j, hj, hfree⟩ := exists_free_candidate used base
  have h := firstFreeIndexGo_spec used base (used.length + 1) 0
    ⟨j, by omega, by simpa using hfree⟩
  exact ⟨h.2.1, fun m hm => h.2.2 m (by omega) hm⟩

/-- The resolved column id (`candidateColumnId` at the first free index) is
never an id already in `used`. -/
theorem resolvedColumnId_not_mem (used : List String) (base : String) :
    candidateColumnId base (firstFreeIndex used base) ∉ used :=
  (firstFreeIndex_spec used base).1

/-! ### The layout merger: `SheetCreationUtils.convertGlobalSelectionData`

The merge input is a list of formatted selections produced by
`GlobalCellSelection.getFormattedData`. Fields that may be absent or of
the wrong runtime type in JavaScript are modelled with `Option`:
`headers = none` models a missing or non-array `headers` property, and
`data = none` a missing or non-array `data` property. `rowCount` models
`entry.rowCount || 0` (a missing or falsy row count reads as `0`). -/

/-- A row of formatted data: a JavaScript object keyed by header string. -/
abbrev DataRow := List (String × CellValue)

/-- The merge input record (the source's `formattedEntry` shape; the fields
`id`, `sheet` and the display timestamp do not influence the merge and the
locale-formatted timestamp string is display-only). -/
structure FormattedEntry where
  id : String
  sheet : String
  table : Option String
  timestamp : Nat
  rowCount : Nat
  columnCount : Nat
  headers : Option (List String)
  data : Option (List DataRow)
deriving DecidableEq, Repr

/-- `IColumnInfo` from `SheetCreationUtils`. -/
structure IColumnInfo where
  id : String
  label : String
  type : String
deriving DecidableEq, Repr

/-- `IBulkData`: a JavaScript object mapping column id to the column's data
array. -/
abbrev IBulkData := List (String × List CellValue)

/-- The mutable state threaded through the two nested loops of
`convertGlobalSelectionData`. -/
structure MergeState where
  columns : List IColumnInfo
  bulkData : IBulkData
  usedColumnIds : List String
deriving DecidableEq, Repr

/-- The result `{columns, bulkData}` of the merge. -/
structure MergeResult where
  columns : List IColumnInfo
  bulkData : IBulkData
deriving DecidableEq, Repr

/-- The two `throw new Error(...)` sites of `convertGlobalSelectionData`;
the specification groups both under `NoDataError`. -/
inductive NoDataError where
  | noFormattedData
  | noValidColumns
deriving DecidableEq, Repr

/-- The inner row loop of the merge: the data sequence of one column, of
length `maxRows`; row indices beyond the selection's data, and absent or
falsy cell values, yield the empty string (`value = entry.data[rowIndex][header] || ''`
guarded by `rowIndex < entry.data.length`). -/
def mkColData (maxRows : Nat) (entry : FormattedEntry) (header : String) : List CellValue :=
  (List.range maxRows).map (fun rowIndex =>
    match entry.data with
    | some rows =>
        match rows[rowIndex]? with
        | some row => jsOr (JsObj.getV row header) (.str "")
        | none => .str ""
    | none => .str "")

/-- `entry.table || "S" + (selectionIndex + 1)`. -/
def tableNameOf (selectionIndex : Nat) (entry : FormattedEntry) : String :=
  match entry.table with
  | some t => if t = "" then "S" ++ natToString (selectionIndex + 1) else t
  | none => "S" ++ natToString (selectionIndex + 1)

/-- The sanitized column-id prefix of a selection: `safeTableName + "_"`. -/
def pfxOf (selectionIndex : Nat) (entry : FormattedEntry) : String :=
  sanitizeTableName (tableNameOf selectionIndex entry) ++ "_"

/-- One iteration of the inner header loop, written over the already-built
base id and column data (`processHeader` instantiates it). Resolves the
column id against `usedColumnIds` (the label computed by the source is the
same string as the id), appends the `ColumnSpec`, stores the column data
under the resolved id, and records the id as used. -/
def processItem (st : MergeState) (item : String × List CellValue) : MergeState :=
  let columnId := candidateColumnId item.1 (firstFreeIndex st.usedColumnIds item.1)
  { columns := st.columns ++ [⟨columnId, columnId, "Text"⟩],
    bulkData := JsObj.set st.bulkData columnId item.2,
    usedColumnIds := st.usedColumnIds ++ [columnId] }

/-- One iteration of the header loop of `convertGlobalSelectionData`. -/
def processHeader (maxRows : Nat) (entry : FormattedEntry) (pfx : String)
    (st : MergeState) (header : String) : MergeState :=
  processItem st (pfx ++ header, mkColData maxRows entry header)

/-- One iteration of the selection loop of `convertGlobalSelectionData`:
a selection whose `headers` is missing or not an array is skipped. -/
def processEntry (maxRows : Nat) (st : MergeState) (ie : Nat × FormattedEntry) : MergeState :=
  match ie.2.headers with
  | none => st
  | some headers => headers.foldl (processHeader maxRows ie.2 (pfxOf ie.1 ie.2)) st

/-- `maxRows = Math.max(...formattedData.map(entry => entry.rowCount || 0))`;
the fold over `max` with base `0` agrees with `Math.max` on the non-empty
lists of naturals this is applied to. -/
def maxRowsOf (formattedData : List FormattedEntry) : Nat :=
  (formattedData.map (fun e => e.rowCount)).foldl max 0

/-- `SheetCreationUtils.convertGlobalSelectionData`. -/
def convertGlobalSelectionData (formattedData : List FormattedEntry) :
    Except NoDataError MergeResult :=
  if formattedData.length = 0 then .error .noFormattedData
  else
    let maxRows := maxRowsOf formattedData
    let st := formattedData.enum.foldl (processEntry maxRows) ⟨[], [], []⟩
    if st.columns.length = 0 then .error .noValidColumns
    else .ok ⟨st.columns, st.bulkData⟩

/-! ### A flattened view of the merge loops

The two nested loops are equivalent to flattening every selection into its
`(base id, column data)` items and then resolving ids left to right. All
structural claims about the merge are read off this flattened view. -/

/-- The items contributed by one enumerated selection. -/
def entryItems (maxRows : Nat) (ie : Nat × FormattedEntry) : List (String × List CellValue) :=
  match ie.2.headers with
  | none => []
  | some headers => headers.map (fun h => (pfxOf ie.1 ie.2 ++ h, mkColData maxRows ie.2 h))

/-- All items of a merge input, in processing order. -/
def allItems (maxRows : Nat) (formattedData : List FormattedEntry) :
    List (String × List CellValue) :=
  (formattedData.enum.map (entryItems maxRows)).flatten

/-- Left-to-right resolution of the flattened items against a used-id set. -/
def assignIds (used : List String) : List (String × List CellValue) → IBulkData
  | [] => []
  | (base, v) :: rest =>
      let cid := candidateColumnId base (firstFreeIndex used base)
      (cid, v) :: assignIds (used ++ [cid]) rest

theorem foldl_processItem_spec (items : List (String × List CellValue)) : ∀ st : MergeState,
    st.bulkData.map (fun p => p.1) = st.usedColumnIds →
    items.foldl processItem st =
      ⟨st.columns ++ (assignIds st.usedColumnIds items).map (fun p => ⟨p.1, p.1, "Text"⟩),
       st.bulkData ++ assignIds st.usedColumnIds items,
       st.usedColumnIds ++ (assignIds st.usedColumnIds items).map (fun p => p.1)⟩ := by
  induction items with
  | nil => intro st _; simp [assignIds]
  | cons item rest ih =>
    intro st hkeys
    obtain ⟨base, v⟩ := item
    set cid := candidateColumnId base (firstFreeIndex st.usedColumnIds base) with hcid
    have hfresh : cid ∉ st.usedColumnIds := resolvedColumnId_not_mem _ _
    have hget : JsObj.get st.bulkData cid = none := by
      apply JsObj.get_eq_none_of_not_mem_keys
      rw [hkeys]
      exact hfresh
    have hset : JsObj.set st.bulkData cid v = st.bulkData ++ [(cid, v)] :=
      JsObj.set_keys_of_not_mem _ _ _ hget
    have hstep : processItem st (base, v) =
        ⟨st.columns ++ [⟨cid, cid, "Text"⟩],
         st.bulkData ++ [(cid, v)],
         st.usedColumnIds ++ [cid]⟩ := by
      simp [processItem, ← hcid, hset]
    have hkeys' : (st.bulkData ++ [(cid, v)]).map (fun p => p.1) =
        st.usedColumnIds ++ [cid] := by
      simp [hkeys]
    calc ((base, v) :: rest).foldl processItem st
        = rest.foldl processItem (processItem st (base, v)) := by simp
      _ = rest.foldl processItem
            ⟨st.columns ++ [⟨cid, cid, "Text"⟩],
             st.bulkData ++ [(cid, v)],
             st.usedColumnIds ++ [cid]⟩ := by rw [hstep]
      _ = _ := by
            rw [ih _ hkeys']
            show (⟨_, _, _⟩ : MergeState) = _
            have hunf : assignIds st.usedColumnIds ((base, v) :: rest) =
                (cid, v) :: assignIds (st.usedColumnIds ++ [cid]) rest := by
              simp [assignIds, ← hcid]
            rw [hunf]
            simp

theorem processEntry_eq_foldl_items (maxRows : Nat) (st : MergeState)
    (ie : Nat × FormattedEntry) :
    processEntry maxRows st ie = (entryItems maxRows ie).foldl processItem st := by
  obtain ⟨i, e⟩ := ie
  cases he : e.headers with
  | none => simp [processEntry, entryItems, he]
  | some headers =>
    simp only [processEntry, entryItems, he]
    rw [List.foldl_map]
    rfl

theorem foldl_processEntry_eq (maxRows : Nat) (st : MergeState)
    (pairs : List (Nat × FormattedEntry)) :
    pairs.foldl (processEntry maxRows) st =
      ((pairs.map (entryItems maxRows)).flatten).foldl processItem st := by
  rw [List.foldl_flatten, List.foldl_map]
  congr 1
  funext s ie
  exact processEntry_eq_foldl_items maxRows s ie

/-- Closed form of the merge loops: the columns are the resolved flattened
items, and `bulkData` pairs each resolved id with its column data, in
order. -/
theorem merge_loops_closed_form (formattedData : List FormattedEntry) (maxRows : Nat) :
    formattedData.enum.foldl (processEntry maxRows) ⟨[], [], []⟩ =
      ⟨(assignIds [] (allItems maxRows formattedData)).map (fun p => ⟨p.1, p.1, "Text"⟩),
       assignIds [] (allItems maxRows formattedData),
       (assignIds [] (allItems maxRows formattedData)).map (fun p => p.1)⟩ := by
  rw [foldl_processEntry_eq]
  have := foldl_processItem_spec (allItems maxRows formattedData)
    ⟨[], [], []⟩ (by simp)
  simpa [allItems] using this

theorem assignIds_length (items : List (String × List CellValue)) : ∀ used,
    (assignIds used items).length = items.length := by
  induction items with
  | nil => intro used; simp [assignIds]
  | cons item rest ih =>
    intro used
    obtain ⟨base, v⟩ := item
    simp [assignIds, ih]

theorem assignIds_values (items : List (String × List CellValue)) : ∀ used,
    (assignIds used items).map (fun p => p.2) = items.map (fun p => p.2) := by
  induction items with
  | nil => intro used; simp [assignIds]
  | cons item rest ih =>
    intro used
    obtain ⟨base, v⟩ := item
    simp [assignIds, ih]

theorem assignIds_ids_fresh_nodup (items : List (String × List CellValue)) : ∀ used,
    (∀ x ∈ (assignIds used items).map (fun p => p.1), x ∉ used) ∧
    ((assignIds used items).map (fun p => p.1)).Nodup := by
  induction items with
  | nil => intro used; simp [assignIds]
  | cons item rest ih =>
    intro used
    obtain ⟨base, v⟩ := item
    set cid := candidateColumnId base (firstFreeIndex used base) with hcid
    have hfresh : cid ∉ used := resolvedColumnId_not_mem _ _
    have hrest := ih (used ++ [cid])
    constructor
    · intro x hx
      simp only [assignIds, ← hcid, List.map_cons, List.mem_cons] at hx
      rcases hx with rfl | hx
      · exact hfresh
      · intro hxu
        exact hrest.1 x hx (by simp [hxu])
    · simp only [assignIds, ← hcid, List.map_cons, List.nodup_cons]
      refine ⟨?_, hrest.2⟩
      intro hmem
      exact hrest.1 cid hmem (by simp)

/-! ### The name resolver: `SheetCreationUtils._generateUniqueTableName`

The source throws `Could not generate unique table name after N attempts`
when the retry budget is exhausted; the model returns `none` for that
throw. The host-document lookup
`gristDoc.docModel.tables.rowModels.find(t => t.tableId.peek() === tableName)`
is abstracted into the existence predicate `tableExists`. -/

/-- The `while (counter <= maxRetries)` loop: `fuel` is the number of
iterations left (`maxRetries - counter + 1`), `counter` the source's
counter, `tableName` the candidate checked this iteration. -/
def generateUniqueTableNameGo (tableExists : String → Bool) (baseTableName : String) :
    Nat → Nat → String → Option String
  | 0, _, _ => none
  | fuel + 1, counter, tableName =>
      if tableExists tableName then
        generateUniqueTableNameGo tableExists baseTableName fuel (counter + 1)
          (baseTableName ++ "_" ++ natToString counter)
      else some tableName

/-- `SheetCreationUtils._generateUniqueTableName` (the leading underscore is
dropped from the Lean name). `none` models the exhaustion throw. -/
def generateUniqueTableName (tableExists : String → Bool) (baseTableName : String)
    (maxRetries : Nat) : Option String :=
  generateUniqueTableNameGo tableExists baseTableName maxRetries 1 baseTableName

/-- The candidate table names tried, in order: the base name and then
`base_1`, ..., `base_(maxRetries-1)` — `maxRetries` candidates in total. -/
def tableNameCandidates (baseTableName : String) (maxRetries : Nat) : List String :=
  (List.range maxRetries).map (candidateColumnId baseTableName)

theorem tableNameCandidates_length (baseTableName : String) (maxRetries : Nat) :
    (tableNameCandidates baseTableName maxRetries).length = maxRetries := by
  simp [tableNameCandidates]

theorem find?_cons_true {A : Type} (p : A → Bool) (a : A) (l : List A)
    (h : p a = true) : (a :: l).find? p = some a := by
  rw [List.find?_cons, h]

theorem find?_cons_false {A : Type} (p : A → Bool) (a : A) (l : List A)
    (h : p a = false) : (a :: l).find? p = l.find? p := by
  rw [List.find?_cons, h]

theorem generateUniqueTableNameGo_eq_find (tableExists : String → Bool)
    (baseTableName : String) : ∀ fuel j,
    generateUniqueTableNameGo tableExists baseTableName fuel (j + 1)
        (candidateColumnId baseTableName j) =
      ((List.range fuel).map (fun i => candidateColumnId baseTableName (j + i))).find?
        (fun c => !tableExists c) := by
  intro fuel
  induction fuel with
  | zero => intro j; simp [generateUniqueTableNameGo]
  | succ fuel ih =>
    intro j
    rw [List.range_succ_eq_map]
    cases hex : tableExists (candidateColumnId baseTableName j) with
    | true =>
      have hne : candidateColumnId baseTableName (j + 1) =
          baseTableName ++ "_" ++ natToString (j + 1) := by
        simp [candidateColumnId]
      have hstep : generateUniqueTableNameGo tableExists baseTableName (fuel + 1) (j + 1)
            (candidateColumnId baseTableName j) =
          generateUniqueTableNameGo tableExists baseTableName fuel (j + 2)
            (baseTableName ++ "_" ++ natToString (j + 1)) := by
        simp only [generateUniqueTableNameGo]
        rw [hex]
        simp
      rw [hstep, ← hne]
      have := ih (j + 1)
      rw [this]
      rw [List.map_cons,
        find?_cons_false (fun c => !tableExists c) _ _ (by simp [hex]), List.map_map]
      congr 1
      apply List.map_congr_left
      intro a _
      show candidateColumnId baseTableName (j + 1 + a) =
        candidateColumnId baseTableName (j + (a + 1))
      congr 1
      omega
    | false =>
      have hstep : generateUniqueTableNameGo tableExists baseTableName (fuel + 1) (j + 1)
            (candidateColumnId baseTableName j) =
          some (candidateColumnId baseTableName j) := by
        simp only [generateUniqueTableNameGo]
        rw [hex]
        simp
      rw [hstep]
      rw [List.map_cons,
        find?_cons_true (fun c => !tableExists c) _ _ (by simp [hex])]
      simp

/-- The name resolver is the first-free search over its candidate list. -/
theorem generateUniqueTableName_eq_find (tableExists : String → Bool)
    (baseTableName : String) (maxRetries : Nat) :
    generateUniqueTableName tableExists baseTableName maxRetries =
      (tableNameCandidates baseTableName maxRetries).find? (fun c => !tableExists c) := by
  have h0 : candidateColumnId baseTableName 0 = baseTableName := by
    simp [candidateColumnId]
  have := generateUniqueTableNameGo_eq_find tableExists baseTableName maxRetries 0
  rw [h0] at this
  rw [generateUniqueTableName, this, tableNameCandidates]
  simp

/-! ### The materializer: `SheetCreationUtils.createNewSheet`

The host document is abstracted to what the source touches: the set of
existing table ids (backing the `rowModels.find` existence check), the id
the host reports back from the `AddTable` action (which the source
*discards* — it is modelled only so that theorems can talk about it), and
the raw view section of a table (backing `_navigateToSheet`). The calls
sent to the host are collected in order as a `HostCall` trace. -/

structure HostDoc where
  existingTables : List String
  createResult : String → String
  viewSectionOf : String → Option Nat

/-- One call sent to the host document API. Row placeholders of
`BulkAddRecord` are `null` entries, modelled as `none`. -/
inductive HostCall where
  | addTable (tableId : String) (columns : List IColumnInfo)
  | bulkAddRecord (tableId : String) (rowIds : List (Option Nat)) (bulkData : IBulkData)
  | openDocPage (viewSectionRef : Nat)
deriving DecidableEq, Repr

/-- Error taxonomy of the materialization pipeline. -/
inductive CreateError where
  | noData (e : NoDataError)
  | nameGenerationExhausted
deriving DecidableEq, Repr

/-- `ICreateSheetOptions` (the `navigateToSheet = true` default is supplied
at call sites). -/
structure ICreateSheetOptions where
  baseTableName : String
  columns : List IColumnInfo
  bulkData : IBulkData
  navigateToSheet : Bool
deriving Repr

/-- The existence predicate `_generateUniqueTableName` evaluates against
the host document. -/
def tableExistsIn (doc : HostDoc) (tableName : String) : Bool :=
  doc.existingTables.contains tableName

/-- `SheetCreationUtils._navigateToSheet`: opens the raw view section of
the new table when one is found; otherwise only logs. -/
def navigateToSheet (doc : HostDoc) (tableId : String) : List HostCall :=
  match doc.viewSectionOf tableId with
  | some v => [.openDocPage v]
  | none => []

/-- `numRows`: the length of the first column's data array
(`Object.values(bulkData)[0]`; the `: 0` fallback corresponds to an empty
`bulkData`, in which case the insert step is skipped anyway). -/
def numRowsOf (bulkData : IBulkData) : Nat :=
  match (bulkData.map (fun p => p.2)).head? with
  | some firstColumnData => firstColumnData.length
  | none => 0

/-- `SheetCreationUtils.createNewSheet`: resolve a unique table name (a
`none` from the generator is the exhaustion throw), send `AddTable`, send
`BulkAddRecord` iff `bulkData` has at least one key, then navigate if
requested. Returns the call trace and the table id the function returns.
The value the host returns for `AddTable` (`doc.createResult`) is not
consulted anywhere, mirroring the discarded `sendAction` result. -/
def SheetCreationUtils.createNewSheet (doc : HostDoc) (options : ICreateSheetOptions) :
    Except CreateError (List HostCall × String) :=
  match generateUniqueTableName (tableExistsIn doc) options.baseTableName 10 with
  | none => .error .nameGenerationExhausted
  | some newTableId =>
      let createCalls : List HostCall := [.addTable newTableId options.columns]
      let dataCalls : List HostCall :=
        if options.bulkData.length > 0 then
          [.bulkAddRecord newTableId (List.replicate (numRowsOf options.bulkData) none)
            options.bulkData]
        else []
      let navCalls : List HostCall :=
        if options.navigateToSheet then navigateToSheet doc newTableId else []
      .ok (createCalls ++ dataCalls ++ navCalls, newTableId)

/-! ### The selection store: `GlobalCellSelection`

Entry fields that may be absent at runtime are `Option`s; a JavaScript
falsiness check on a string field (`!entry.tableId`) is false for `none`
and for the empty string. Row identifiers (`UIRowId`) are modelled as
naturals. `cellData` maps a row id to a column-id-keyed object of values. -/

/-- A view field as touched by this code: `field.column().colId.peek()` and
`field.label.peek()`. `none` models a peek that throws (e.g. a disposed
field) — the formatting step catches such errors per field. -/
structure ViewFieldRec where
  colId : Option String
  label : Option String
deriving DecidableEq, Repr

/-- `IGlobalSelectionEntry`. -/
structure IGlobalSelectionEntry where
  id : String
  sheetName : Option String
  sectionId : Nat
  tableId : Option String
  rowIds : Option (List Nat)
  fields : Option (List ViewFieldRec)
  timestamp : Nat
  cellData : List (Nat × DataRow)
  headers : List String
deriving DecidableEq, Repr

/-- JavaScript truthiness of a possibly-absent string. -/
def truthyStr : Option String → Bool
  | some s => s ≠ ""
  | none => false

/-- `GlobalCellSelection.clearSelections`: `this.selections.set([])`. -/
def GlobalCellSelection.clearSelections
    (_selections : List IGlobalSelectionEntry) : List IGlobalSelectionEntry := []

/-- `GlobalCellSelection.removeSelection`:
`currentSelections.filter(entry => entry.id !== id)`. -/
def GlobalCellSelection.removeSelection
    (selections : List IGlobalSelectionEntry) (id : String) : List IGlobalSelectionEntry :=
  selections.filter (fun entry => entry.id ≠ id)

/-- `GlobalCellSelection.addSelection` appends the captured entry at the
end of the collection (capture itself reads from the live view; the entry
argument stands for the record built in the source before the append). -/
def GlobalCellSelection.addSelection
    (selections : List IGlobalSelectionEntry) (entry : IGlobalSelectionEntry) :
    List IGlobalSelectionEntry :=
  selections ++ [entry]

/-- One field of the per-row loop of `getFormattedData`: the `try` block
sets `row[header] = cellData[rowId]?.[colId] || null`; a field whose
extraction throws (modelled by a `none` colId or label) is caught and
skipped, leaving the row unchanged. -/
def extractField (cellData : List (Nat × DataRow)) (rowId : Nat)
    (row : DataRow) (field : ViewFieldRec) : DataRow :=
  match field.colId, field.label with
  | some colId, some header =>
      JsObj.set row header
        (jsOr (JsObj.getV ((cellData.lookup rowId).getD []) colId) .null)
  | _, _ => row

/-- The body of the per-row loop of `getFormattedData`: start from
`{rowId}`, then process each field in order. -/
def extractRow (cellData : List (Nat × DataRow)) (rowId : Nat)
    (fields : List ViewFieldRec) : DataRow :=
  fields.foldl (extractField cellData rowId) [("rowId", .num (Int.ofNat rowId))]

/-- The source's validity check on an entry:
`!entry.tableId || !entry.sheetName || !entry.rowIds || !entry.fields`
(negated here: `true` means the entry is kept). -/
def entryValid (entry : IGlobalSelectionEntry) : Bool :=
  truthyStr entry.tableId && truthyStr entry.sheetName &&
    entry.rowIds.isSome && entry.fields.isSome

/-- The body of the `map` in `getFormattedData`: `none` models the `null`
returned for a null or invalid entry. The display timestamp
(`toLocaleString`) is locale-dependent output only and is carried as the
raw timestamp. -/
def formatEntry (oe : Option IGlobalSelectionEntry) : Option FormattedEntry :=
  match oe with
  | none => none
  | some entry =>
      if entryValid entry then
        let rowIds := entry.rowIds.getD []
        let fields := entry.fields.getD []
        some { id := entry.id,
               sheet := entry.sheetName.getD "",
               table := entry.tableId,
               timestamp := entry.timestamp,
               rowCount := rowIds.length,
               columnCount := fields.length,
               headers := some entry.headers,
               data := some (rowIds.map (fun rowId => extractRow entry.cellData rowId fields)) }
      else none

/-- `GlobalCellSelection.getFormattedData`: filter out null entries, map
each to its formatted record or `null`, and drop the `null`s. The input is
a list of possibly-null entries, as the defensive source allows. -/
def getFormattedData (selections : List (Option IGlobalSelectionEntry)) :
    List FormattedEntry :=
  (((selections.filter (fun e => e.isSome)).map formatEntry)).filterMap id

/-- Outcome of `GlobalCellSelection.createNewSheet`: either the silent
early return taken when there are no formatted selections (a console.log,
no error), or the result of the pipeline run after the user submits a
sheet name in the modal. -/
inductive GlobalCreateResult where
  | noSelections
  | submitted (result : Except CreateError (List HostCall × String))
deriving Repr

/-- `GlobalCellSelection.createNewSheet`: format the current selections;
if none, log and return; otherwise show the naming modal and, on submit,
convert and materialize (errors are logged and rethrown). `submittedName`
is the name the user submits. -/
def GlobalCellSelection.createNewSheet (doc : HostDoc)
    (selections : List IGlobalSelectionEntry) (submittedName : String) :
    GlobalCreateResult :=
  let formattedData := getFormattedData (selections.map some)
  if formattedData.length = 0 then .noSelections
  else .submitted (do
    let grid ← (convertGlobalSelectionData formattedData).mapError CreateError.noData
    SheetCreationUtils.createNewSheet doc
      ⟨submittedName, grid.columns, grid.bulkData, true⟩)

/-! ### Shared helper lemmas about the merge output -/

theorem convert_ok_spec (formattedData : List FormattedEntry) (res : MergeResult)
    (h : convertGlobalSelectionData formattedData = .ok res) :
    formattedData ≠ [] ∧
    res.columns = (assignIds [] (allItems (maxRowsOf formattedData) formattedData)).map
        (fun p => ⟨p.1, p.1, "Text"⟩) ∧
    res.bulkData = assignIds [] (allItems (maxRowsOf formattedData) formattedData) ∧
    res.columns ≠ [] := by
  by_cases hlen : formattedData.length = 0
  · simp only [convertGlobalSelectionData, hlen, if_true] at h
    cases h
  · simp only [convertGlobalSelectionData, hlen, if_false, merge_loops_closed_form] at h
    split at h
    · cases h
    · rename_i hcols
      injection h with h
      refine ⟨fun hnil => hlen (by simp [hnil]), ?_, ?_, ?_⟩
      · rw [← h]
      · rw [← h]
      · rw [← h]
        intro hnil
        simp at hnil
        apply hcols
        simp [hnil]

theorem foldl_max_init (l : List Nat) : ∀ a : Nat, l.foldl max a = max a (l.foldl max 0) := by
  induction l with
  | nil => intro a; simp
  | cons x t ih =>
    intro a
    simp only [List.foldl_cons]
    rw [ih (max a x), ih (max 0 x)]
    omega

theorem maxRowsOf_spec (formattedData : List FormattedEntry) :
    (∀ e ∈ formattedData, e.rowCount ≤ maxRowsOf formattedData) ∧
    (formattedData ≠ [] → ∃ e ∈ formattedData, maxRowsOf formattedData = e.rowCount) := by
  induction formattedData with
  | nil => simp [maxRowsOf]
  | cons x t ih =>
    have hx : maxRowsOf (x :: t) = max x.rowCount (maxRowsOf t) := by
      simp only [maxRowsOf, List.map_cons, List.foldl_cons]
      rw [foldl_max_init]
      omega
    constructor
    · intro e he
      rcases List.mem_cons.mp he with rfl | he
      · omega
      · have := ih.1 e he
        omega
    · intro _
      by_cases ht : t = []
      · subst ht
        exact ⟨x, by simp, by simp [maxRowsOf]⟩
      · obtain ⟨e, he, hmax⟩ := ih.2 ht
        by_cases hcmp : maxRowsOf t ≤ x.rowCount
        · exact ⟨x, by simp, by omega⟩
        · exact ⟨e, by simp [he], by omega⟩

theorem mkColData_length (maxRows : Nat) (entry : FormattedEntry) (header : String) :
    (mkColData maxRows entry header).length = maxRows := by
  simp [mkColData]

theorem mkColData_getElem (maxRows : Nat) (entry : FormattedEntry) (header : String)
    (r : Nat) (hr : r < maxRows) :
    (mkColData maxRows entry header)[r]? =
      some (match entry.data with
            | some rows =>
                match rows[r]? with
                | some row => jsOr (JsObj.getV row header) (.str "")
                | none => .str ""
            | none => .str "") := by
  simp only [mkColData, List.getElem?_map, List.getElem?_range hr]
  rfl

theorem allItems_mem (maxRows : Nat) (formattedData : List FormattedEntry)
    (item : String × List CellValue) (hmem : item ∈ allItems maxRows formattedData) :
    ∃ i e, (i, e) ∈ formattedData.enum ∧ e ∈ formattedData ∧
      ∃ headers, e.headers = some headers ∧ ∃ h ∈ headers,
        item = (pfxOf i e ++ h, mkColData maxRows e h) := by
  simp only [allItems, List.mem_flatten, List.mem_map] at hmem
  obtain ⟨items, ⟨⟨i, e⟩, hie, rfl⟩, hitem⟩ := hmem
  refine ⟨i, e, hie, ?_, ?_⟩
  · have : e ∈ formattedData.enum.map Prod.snd := List.mem_map_of_mem Prod.snd hie
    rwa [List.enum_map_snd] at this
  · cases hh : e.headers with
    | none => simp [entryItems, hh] at hitem
    | some headers =>
      simp only [entryItems, hh, List.mem_map] at hitem
      obtain ⟨h, hh2, rfl⟩ := hitem
      exact ⟨headers, rfl, h, hh2, rfl⟩

theorem entryItems_length (maxRows : Nat) (ie : Nat × FormattedEntry) :
    (entryItems maxRows ie).length =
      match ie.2.headers with
      | none => 0
      | some headers => headers.length := by
  cases hh : ie.2.headers <;> simp [entryItems, hh]

theorem allItems_length (maxRows : Nat) (formattedData : List FormattedEntry) :
    (allItems maxRows formattedData).length =
      (formattedData.map (fun e => (e.headers.getD []).length)).sum := by
  simp only [allItems, List.length_flatten, List.map_map]
  have : formattedData.enum.map ((fun items => items.length) ∘ entryItems maxRows) =
      formattedData.enum.map (fun ie => (ie.2.headers.getD []).length) := by
    apply List.map_congr_left
    intro ie _
    simp only [Function.comp_apply, entryItems_length]
    cases hh : ie.2.headers <;> simp [hh]
  rw [this]
  have h2 : formattedData.enum.map (fun ie => (ie.2.headers.getD []).length) =
      formattedData.map (fun e => (e.headers.getD []).length) := by
    rw [show (fun ie : Nat × FormattedEntry => (ie.2.headers.getD []).length) =
      (fun e : FormattedEntry => (e.headers.getD []).length) ∘ Prod.snd from rfl]
    rw [← List.map_map, List.enum_map_snd]
  rw [h2]

theorem entryItems_eq_nil_iff (maxRows : Nat) (ie : Nat × FormattedEntry) :
    entryItems maxRows ie = [] ↔ ie.2.headers = none ∨ ie.2.headers = some [] := by
  cases hh : ie.2.headers with
  | none => simp [entryItems, hh]
  | some hs => cases hs <;> simp [entryItems, hh]

theorem allItems_eq_nil_iff (maxRows : Nat) (formattedData : List FormattedEntry) :
    allItems maxRows formattedData = [] ↔
      ∀ e ∈ formattedData, e.headers = none ∨ e.headers = some [] := by
  simp only [allItems, List.flatten_eq_nil_iff]
  constructor
  · intro h e he
    have hmem : e ∈ formattedData.enum.map Prod.snd := by
      rw [List.enum_map_snd]; exact he
    obtain ⟨p, hp, rfl⟩ := List.mem_map.mp hmem
    have hz := h (entryItems maxRows p) (List.mem_map_of_mem _ hp)
    exact (entryItems_eq_nil_iff maxRows p).mp hz
  · intro h l hl
    obtain ⟨p, hp, rfl⟩ := List.mem_map.mp hl
    have he : p.2 ∈ formattedData := by
      have : p.2 ∈ formattedData.enum.map Prod.snd := List.mem_map_of_mem _ hp
      rwa [List.enum_map_snd] at this
    exact (entryItems_eq_nil_iff maxRows p).mpr (h p.2 he)

theorem assignIds_eq_nil_iff (used : List String) (items : List (String × List CellValue)) :
    assignIds used items = [] ↔ items = [] := by
  cases items with
  | nil => simp [assignIds]
  | cons item rest =>
    obtain ⟨base, v⟩ := item
    simp [assignIds]

/-- Full case analysis of `convertGlobalSelectionData`'s result. -/
theorem convert_cases (formattedData : List FormattedEntry) :
    (convertGlobalSelectionData formattedData = .error NoDataError.noFormattedData ↔
      formattedData = []) ∧
    (convertGlobalSelectionData formattedData = .error NoDataError.noValidColumns ↔
      (formattedData ≠ [] ∧
       ∀ e ∈ formattedData, e.headers = none ∨ e.headers = some [])) := by
  by_cases hlen : formattedData.length = 0
  · have hnil : formattedData = [] := List.length_eq_zero.mp hlen
    subst hnil
    constructor
    · simp [convertGlobalSelectionData]
    · simp [convertGlobalSelectionData]
  · have hne : formattedData ≠ [] := fun h => hlen (by simp [h])
    constructor
    · simp only [convertGlobalSelectionData, hlen, if_false, merge_loops_closed_form]
      split
      · rename_i hcols
        simp only [List.length_map] at hcols
        constructor
        · intro h; cases h
        · intro h; exact absurd h hne
      · constructor
        · intro h; cases h
        · intro h; exact absurd h hne
    · simp only [convertGlobalSelectionData, hlen, if_false, merge_loops_closed_form]
      split
      · rename_i hcols
        simp only [List.length_map] at hcols
        have hnil2 : assignIds [] (allItems (maxRowsOf formattedData) formattedData) = [] :=
          List.length_eq_zero.mp hcols
        have hitems := (assignIds_eq_nil_iff _ _).mp hnil2
        have hall := (allItems_eq_nil_iff (maxRowsOf formattedData) formattedData).mp hitems
        simp only [eq_self_iff_true, true_iff]
        exact ⟨hne, hall⟩
      · rename_i hcols
        simp only [List.length_map] at hcols
        constructor
        · intro h; cases h
        · rintro ⟨_, hall⟩
          exfalso
          apply hcols
          have hitems := (allItems_eq_nil_iff (maxRowsOf formattedData) formattedData).mpr hall
          rw [(assignIds_eq_nil_iff _ _).mpr hitems]
          rfl

theorem convert_ok_exists_iff (formattedData : List FormattedEntry) :
    (∃ res, convertGlobalSelectionData formattedData = .ok res) ↔
      (formattedData ≠ [] ∧
       ∃ e ∈ formattedData, ∃ hs, e.headers = some hs ∧ hs ≠ []) := by
  constructor
  · rintro ⟨res, h⟩
    obtain ⟨hne, hcols, _, hcne⟩ := convert_ok_spec formattedData res h
    refine ⟨hne, ?_⟩
    by_contra hnone
    push_neg at hnone
    have hall : ∀ e ∈ formattedData, e.headers = none ∨ e.headers = some [] := by
      intro e he
      cases hh : e.headers with
      | none => exact Or.inl rfl
      | some hs => exact Or.inr (by rw [hnone e he hs hh])
    have hnil : allItems (maxRowsOf formattedData) formattedData = [] :=
      (allItems_eq_nil_iff _ _).mpr hall
    apply hcne
    rw [hcols, (assignIds_eq_nil_iff _ _).mpr hnil]
    rfl
  · rintro ⟨hne, e, he, hs, hh, hsne⟩
    cases hres : convertGlobalSelectionData formattedData with
    | ok res => exact ⟨res, rfl⟩
    | error err =>
      cases err with
      | noFormattedData => exact absurd (((convert_cases formattedData).1).mp hres) hne
      | noValidColumns =>
        have hdeg := (((convert_cases formattedData).2).mp hres).2 e he
        rcases hdeg with h1 | h1 <;> rw [hh] at h1
        · cases h1
        · injection h1 with h1
          exact absurd h1 hsne

/-- C7: `convertGlobalSelectionData` fails with `NoDataError` exactly when
the input list is empty (the `No formatted data provided` throw) or the
resulting column list is empty, i.e. every selection's headers are missing
or empty (the `No valid columns found` throw); in every other case it
returns a merged grid without error. -/
theorem c7_merge_error_exactly_two_cases :
    ∀ formattedData : List FormattedEntry,
      ((∃ err, convertGlobalSelectionData formattedData = .error err) ↔
        (formattedData = [] ∨
         ∀ e ∈ formattedData, e.headers = none ∨ e.headers = some [])) ∧
      (convertGlobalSelectionData formattedData = .error NoDataError.noFormattedData ↔
        formattedData = []) ∧
      (convertGlobalSelectionData formattedData = .error NoDataError.noValidColumns ↔
        (formattedData ≠ [] ∧
         ∀ e ∈ formattedData, e.headers = none ∨ e.headers = some [])) ∧
      ((∃ res, convertGlobalSelectionData formattedData = .ok res) ↔
        ¬(formattedData = [] ∨
          ∀ e ∈ formattedData, e.headers = none ∨ e.headers = some [])) := by
  intro fd
  have hc := convert_cases fd
  refine ⟨?_, hc.1, hc.2, ?_⟩
  · constructor
    · rintro ⟨err, herr⟩
      cases err with
      | noFormattedData => exact Or.inl (hc.1.mp herr)
      | noValidColumns => exact Or.inr ((hc.2.mp herr).2)
    · intro h
      rcases h with h | h
      · exact ⟨.noFormattedData, hc.1.mpr h⟩
      · by_cases hne : fd = []
        · exact ⟨.noFormattedData, hc.1.mpr hne⟩
        · exact ⟨.noValidColumns, hc.2.mpr ⟨hne, h⟩⟩
  · rw [convert_ok_exists_iff]
    push_neg
    constructor
    · rintro ⟨hne, e, he, hs, hh, hsne⟩
      refine ⟨hne, e, he, ?_, ?_⟩
      · rw [hh]; simp
      · rw [hh]
        intro h1
        injection h1 with h1
        exact hsne h1
    · rintro ⟨hne, e, he, hdeg⟩
      refine ⟨hne, e, he, ?_⟩
      cases hh : e.headers with
      | none => exact absurd hh hdeg.1
      | some hs =>
        refine ⟨hs, rfl, ?_⟩
        intro hnil
        subst hnil
        exact hdeg.2 hh

/-- Witness for C7 at a concrete input: the empty selection list yields the
no-formatted-data error. -/
theorem c7_witness :
    convertGlobalSelectionData [] = .error NoDataError.noFormattedData :=
  (c7_merge_error_exactly_two_cases []).2.1.mpr rfl

/-- C3: the name resolver tries the base name first and returns it when
free; otherwise it walks `base_1`, `base_2`, ... for at most `maxRetries`
candidates in total (base included), returns the first free candidate,
never returns a colliding name, and fails (the exhaustion throw, modelled
as `none`) exactly when every candidate collides. With existing names
`Orders, Orders_1, ..., Orders_9` and `maxRetries = 10` it fails; with
existing name `Orders` alone it returns `Orders_1`. -/
theorem c3_unique_table_name_resolver :
    (∀ (tableExists : String → Bool) (base : String) (maxRetries : Nat) (t : String),
        generateUniqueTableName tableExists base maxRetries = some t →
          tableExists t = false) ∧
    (∀ (tableExists : String → Bool) (base : String) (maxRetries : Nat),
        0 < maxRetries → tableExists base = false →
          generateUniqueTableName tableExists base maxRetries = some base) ∧
    (∀ (tableExists : String → Bool) (base : String) (maxRetries : Nat),
        generateUniqueTableName tableExists base maxRetries =
          (tableNameCandidates base maxRetries).find? (fun c => !tableExists c)) ∧
    (∀ (tableExists : String → Bool) (base : String) (maxRetries : Nat),
        generateUniqueTableName tableExists base maxRetries = none ↔
          ∀ c ∈ tableNameCandidates base maxRetries, tableExists c = true) ∧
    (∀ (base : String) (maxRetries : Nat),
        (tableNameCandidates base maxRetries).length = maxRetries) ∧
    generateUniqueTableName
      (fun s => ["Orders", "Orders_1", "Orders_2", "Orders_3", "Orders_4", "Orders_5",
                 "Orders_6", "Orders_7", "Orders_8", "Orders_9"].contains s)
      "Orders" 10 = none ∧
    generateUniqueTableName (fun s => s == "Orders") "Orders" 10 = some "Orders_1" := by
  refine ⟨?_, ?_, generateUniqueTableName_eq_find, ?_, tableNameCandidates_length,
    by decide, by decide⟩
  · intro tableExists base maxRetries t h
    rw [generateUniqueTableName_eq_find] at h
    have := List.find?_some h
    simpa using this
  · intro tableExists base maxRetries hpos hfree
    rw [generateUniqueTableName_eq_find]
    obtain ⟨m, rfl⟩ := Nat.exists_eq_succ_of_ne_zero (Nat.pos_iff_ne_zero.mp hpos)
    rw [tableNameCandidates, List.range_succ_eq_map, List.map_cons]
    rw [find?_cons_true (fun c => !tableExists c) _ _ (by simp [candidateColumnId, hfree])]
    simp [candidateColumnId]
  · intro tableExists base maxRetries
    rw [generateUniqueTableName_eq_find, List.find?_eq_none]
    constructor
    · intro h c hc
      have := h c hc
      simpa using this
    · intro h c hc
      simp [h c hc]

/-- Witness for C3 at concrete inputs: with only `Ledger` taken, the
resolver skips the base and returns `Ledger_1`, which is indeed free. -/
theorem c3_witness :
    generateUniqueTableName (fun s => s == "Ledger") "Ledger" 10 = some "Ledger" ∨
    (fun s : String => s == "Ledger") "Ledger_1" = false := by
  right
  exact c3_unique_table_name_resolver.1 (fun s => s == "Ledger") "Ledger" 10 "Ledger_1"
    (by decide)

/-- C9: `removeSelection id` keeps the remaining entries unchanged and in
their relative order (it is a sublist of the original), retains exactly
the entries whose id differs, is a no-op when no entry has the id, and —
when ids are pairwise distinct — removes precisely the one matching entry
from the middle of the collection. -/
theorem c9_remove_selection_frame :
    ∀ (selections : List IGlobalSelectionEntry) (id : String),
      (GlobalCellSelection.removeSelection selections id).Sublist selections ∧
      (∀ e ∈ GlobalCellSelection.removeSelection selections id, e.id ≠ id) ∧
      (∀ e ∈ selections, e.id ≠ id →
        e ∈ GlobalCellSelection.removeSelection selections id) ∧
      ((∀ e ∈ selections, e.id ≠ id) →
        GlobalCellSelection.removeSelection selections id = selections) ∧
      (∀ e, (selections.map (fun x => x.id)).Nodup → e ∈ selections → e.id = id →
        ∃ pre post, selections = pre ++ e :: post ∧
          GlobalCellSelection.removeSelection selections id = pre ++ post) := by
  intro selections id
  refine ⟨List.filter_sublist _, ?_, ?_, ?_, ?_⟩
  · intro e he
    have := (List.mem_filter.mp he).2
    simpa using this
  · intro e he hne
    exact List.mem_filter.mpr ⟨he, by simpa using hne⟩
  · intro h
    apply List.filter_eq_self.mpr
    intro a ha
    simpa using h a ha
  · intro e
    induction selections with
    | nil => intro _ he; cases he
    | cons a t ih =>
      intro hnodup he hid
      have hnodup2 : (∀ x ∈ t, x.id ≠ a.id) ∧ (t.map (fun x => x.id)).Nodup := by
        simpa using hnodup
      rcases List.mem_cons.mp he with rfl | het
      · refine ⟨[], t, by simp, ?_⟩
        have ht : ∀ x ∈ t, x.id ≠ id := by
          intro x hx hxid
          exact hnodup2.1 x hx (hxid.trans hid.symm)
        simp only [GlobalCellSelection.removeSelection]
        rw [List.filter_cons_of_neg (by simp [hid])]
        rw [List.filter_eq_self.mpr (fun x hx => by simpa using ht x hx)]
        simp
      · have haid : a.id ≠ id := by
          intro haid
          apply hnodup2.1 e het
          rw [hid, haid]
        obtain ⟨pre, post, hdecomp, hres⟩ := ih hnodup2.2 het hid
        refine ⟨a :: pre, post, by simp [hdecomp], ?_⟩
        simp only [GlobalCellSelection.removeSelection]
        rw [List.filter_cons_of_pos (by simp [haid])]
        simp only [GlobalCellSelection.removeSelection] at hres
        rw [hres]
        simp

/-- Witness for C9 at a concrete input: removing an id no entry carries is
a no-op. -/
theorem c9_witness :
    GlobalCellSelection.removeSelection
      [⟨"sel-1", some "Sheet1", 1, some "T1", some [], some [], 0, [], []⟩] "other" =
      [⟨"sel-1", some "Sheet1", 1, some "T1", some [], some [], 0, [], []⟩] :=
  (c9_remove_selection_frame
    [⟨"sel-1", some "Sheet1", 1, some "T1", some [], some [], 0, [], []⟩] "other").2.2.2.1
    (by decide)

/-! ### Materializer lemmas (C4, C5) -/

theorem createNewSheet_ok_spec (doc : HostDoc) (options : ICreateSheetOptions)
    (calls : List HostCall) (tid : String)
    (h : SheetCreationUtils.createNewSheet doc options = .ok (calls, tid)) :
    generateUniqueTableName (tableExistsIn doc) options.baseTableName 10 = some tid ∧
    calls = [HostCall.addTable tid options.columns] ++
      (if options.bulkData.length > 0 then
        [HostCall.bulkAddRecord tid (List.replicate (numRowsOf options.bulkData) none)
          options.bulkData]
       else []) ++
      (if options.navigateToSheet then navigateToSheet doc tid else []) := by
  cases hgen : generateUniqueTableName (tableExistsIn doc) options.baseTableName 10 with
  | none =>
    simp only [SheetCreationUtils.createNewSheet, hgen] at h
    cases h
  | some newId =>
    simp only [SheetCreationUtils.createNewSheet, hgen, Except.ok.injEq, Prod.mk.injEq] at h
    obtain ⟨hcalls, htid⟩ := h
    subst htid
    exact ⟨rfl, hcalls.symm⟩

theorem navigateToSheet_calls (doc : HostDoc) (tid : String) :
    ∀ c ∈ navigateToSheet doc tid, ∃ v, c = HostCall.openDocPage v := by
  intro c hc
  unfold navigateToSheet at hc
  cases hv : doc.viewSectionOf tid with
  | some v =>
    rw [hv] at hc
    simp at hc
    exact ⟨v, hc⟩
  | none =>
    rw [hv] at hc
    cases hc

theorem createNewSheet_bulk_mem (doc : HostDoc) (options : ICreateSheetOptions)
    (calls : List HostCall) (tid : String)
    (h : SheetCreationUtils.createNewSheet doc options = .ok (calls, tid)) :
    ∀ t rows d, HostCall.bulkAddRecord t rows d ∈ calls →
      t = tid ∧ rows = List.replicate (numRowsOf options.bulkData) none ∧
      d = options.bulkData := by
  obtain ⟨hgen, hcalls⟩ := createNewSheet_ok_spec doc options calls tid h
  subst hcalls
  intro t rows d hmem
  simp only [List.mem_append] at hmem
  rcases hmem with (h1 | h1) | h1
  · simp at h1
  · by_cases hlen : options.bulkData.length > 0
    · rw [if_pos hlen] at h1
      simp at h1
      exact ⟨h1.1, h1.2.1, h1.2.2⟩
    · rw [if_neg hlen] at h1
      cases h1
  · by_cases hnav : options.navigateToSheet
    · rw [if_pos hnav] at h1
      obtain ⟨v, hv⟩ := navigateToSheet_calls doc tid _ h1
      cases hv
    · rw [if_neg hnav] at h1
      cases h1

theorem createNewSheet_bulk_exists (doc : HostDoc) (options : ICreateSheetOptions)
    (calls : List HostCall) (tid : String)
    (h : SheetCreationUtils.createNewSheet doc options = .ok (calls, tid)) :
    (∃ t rows d, HostCall.bulkAddRecord t rows d ∈ calls) ↔ options.bulkData ≠ [] := by
  obtain ⟨hgen, hcalls⟩ := createNewSheet_ok_spec doc options calls tid h
  subst hcalls
  constructor
  · rintro ⟨t, rows, d, hmem⟩
    intro hempty
    rw [hempty] at hmem
    rw [if_neg (by simp)] at hmem
    simp only [List.nil_append, List.mem_append, List.mem_singleton] at hmem
    rcases hmem with h1 | h1
    · rcases h1 with h1 | h1
      · exact HostCall.noConfusion h1
      · cases h1
    · by_cases hnav : options.navigateToSheet
      · rw [if_pos hnav] at h1
        obtain ⟨v, hv⟩ := navigateToSheet_calls doc tid _ h1
        cases hv
      · rw [if_neg hnav] at h1
        cases h1
  · intro hne
    have hlen : options.bulkData.length > 0 := List.length_pos.mpr hne
    refine ⟨tid, List.replicate (numRowsOf options.bulkData) none, options.bulkData, ?_⟩
    rw [if_pos hlen]
    simp

/-- C4 (amended): the bulk-insert call is emitted iff the merged grid's
`bulkData` has at least one column (not iff the row count is positive);
when emitted, it carries `numRows` null placeholders — `numRows` being the
first column's data length — together with the `bulkData` mapping and the
locally resolved table id. -/
theorem c4_bulk_insert_iff_bulkdata_nonempty :
    ∀ (doc : HostDoc) (options : ICreateSheetOptions) (calls : List HostCall) (tid : String),
      SheetCreationUtils.createNewSheet doc options = .ok (calls, tid) →
      ((∃ t rows d, HostCall.bulkAddRecord t rows d ∈ calls) ↔ options.bulkData ≠ []) ∧
      (∀ t rows d, HostCall.bulkAddRecord t rows d ∈ calls →
        t = tid ∧ rows = List.replicate (numRowsOf options.bulkData) none ∧
        d = options.bulkData) := by
  intro doc options calls tid h
  exact ⟨createNewSheet_bulk_exists doc options calls tid h,
         createNewSheet_bulk_mem doc options calls tid h⟩

/-- Counterexample to C4 as stated: a grid with one column and zero rows
(row count 0) still triggers the bulk-insert call — the source guards on
`Object.keys(bulkData).length > 0`, not on the row count. Row placeholder
count is 0 (`numRows = 0`), yet `BulkAddRecord` is sent. -/
theorem c4_counterexample :
    SheetCreationUtils.createNewSheet
        ⟨[], fun s => s, fun _ => none⟩
        ⟨"T", [⟨"A", "A", "Text"⟩], [("A", [])], false⟩ =
      .ok ([HostCall.addTable "T" [⟨"A", "A", "Text"⟩],
            HostCall.bulkAddRecord "T" [] [("A", [])]], "T") ∧
    numRowsOf [("A", ([] : List CellValue))] = 0 :=
  ⟨rfl, rfl⟩

/-- Witness for C4 at a concrete input: with one column of one row, the
bulk-insert call is emitted with one null placeholder. -/
theorem c4_witness :
    HostCall.bulkAddRecord "T" [none] [("A", [CellValue.num 7])] ∈
      [HostCall.addTable "T" [⟨"A", "A", "Text"⟩],
       HostCall.bulkAddRecord "T" [none] [("A", [CellValue.num 7])]] ∧
    ([("A", [CellValue.num 7])] : IBulkData) ≠ [] := by
  constructor
  · have h := (c4_bulk_insert_iff_bulkdata_nonempty
      ⟨[], fun s => s, fun _ => none⟩
      ⟨"T", [⟨"A", "A", "Text"⟩], [("A", [CellValue.num 7])], false⟩
      [HostCall.addTable "T" [⟨"A", "A", "Text"⟩],
       HostCall.bulkAddRecord "T" [none] [("A", [CellValue.num 7])]]
      "T" rfl).1.mpr (by decide)
    obtain ⟨t, rows, d, hmem⟩ := h
    have hspec := (c4_bulk_insert_iff_bulkdata_nonempty
      ⟨[], fun s => s, fun _ => none⟩
      ⟨"T", [⟨"A", "A", "Text"⟩], [("A", [CellValue.num 7])], false⟩
      [HostCall.addTable "T" [⟨"A", "A", "Text"⟩],
       HostCall.bulkAddRecord "T" [none] [("A", [CellValue.num 7])]]
      "T" rfl).2 t rows d hmem
    obtain ⟨rfl, rfl, rfl⟩ := hspec
    exact hmem
  · decide

/-- C5 (amended): the table id used for the bulk-insert step is the
materializer's locally resolved name — the same id passed to the
create-table action and returned by the function; the id the host reports
back from `AddTable` is discarded, never consulted. -/
theorem c5_bulk_insert_uses_local_id :
    ∀ (doc : HostDoc) (options : ICreateSheetOptions) (calls : List HostCall) (tid : String),
      SheetCreationUtils.createNewSheet doc options = .ok (calls, tid) →
      generateUniqueTableName (tableExistsIn doc) options.baseTableName 10 = some tid ∧
      HostCall.addTable tid options.columns ∈ calls ∧
      (∀ t rows d, HostCall.bulkAddRecord t rows d ∈ calls → t = tid) := by
  intro doc options calls tid h
  obtain ⟨hgen, hcalls⟩ := createNewSheet_ok_spec doc options calls tid h
  refine ⟨hgen, ?_, ?_⟩
  · rw [hcalls]
    simp
  · intro t rows d hmem
    exact (createNewSheet_bulk_mem doc options calls tid h t rows d hmem).1

/-- Counterexample to C5 as stated: a host whose create-table action
reports back a different id (`HostRenamed`); the code still bulk-inserts
into its locally resolved id `T`, not the id the host returned. -/
theorem c5_counterexample :
    SheetCreationUtils.createNewSheet
        ⟨[], fun _ => "HostRenamed", fun _ => none⟩
        ⟨"T", [⟨"A", "A", "Text"⟩], [("A", [CellValue.num 1])], false⟩ =
      .ok ([HostCall.addTable "T" [⟨"A", "A", "Text"⟩],
            HostCall.bulkAddRecord "T" [none] [("A", [CellValue.num 1])]], "T") ∧
    (fun _ : String => "HostRenamed") "T" ≠ "T" :=
  ⟨rfl, by decide⟩

/-- Witness for C5 at a concrete input. -/
theorem c5_witness :
    HostCall.addTable "T" [⟨"A", "A", "Text"⟩] ∈
      [HostCall.addTable "T" [⟨"A", "A", "Text"⟩],
       HostCall.bulkAddRecord "T" [none] [("A", [CellValue.num 1])]] :=
  (c5_bulk_insert_uses_local_id
    ⟨[], fun _ => "HostRenamed", fun _ => none⟩
    ⟨"T", [⟨"A", "A", "Text"⟩], [("A", [CellValue.num 1])], false⟩
    [HostCall.addTable "T" [⟨"A", "A", "Text"⟩],
     HostCall.bulkAddRecord "T" [none] [("A", [CellValue.num 1])]]
    "T" rfl).2.1

/-! ### Cleared-store behaviour (C6) -/

/-- C6 (amended): after `clearSelections`, formatting returns the empty
result, and a subsequent materialize call takes the silent early-return
path (`console.log` and `return`) — it does not throw `NoDataError`,
because the empty-store guard runs before the merge is ever invoked. -/
theorem c6_clear_then_materialize_early_return :
    ∀ (selections : List IGlobalSelectionEntry) (doc : HostDoc) (submittedName : String),
      getFormattedData ((GlobalCellSelection.clearSelections selections).map some) = [] ∧
      GlobalCellSelection.createNewSheet doc
        (GlobalCellSelection.clearSelections selections) submittedName =
        GlobalCreateResult.noSelections := by
  intro selections doc submittedName
  exact ⟨rfl, rfl⟩

/-- Counterexample to C6 as stated: materializing right after
`clearSelections` yields the silent `noSelections` return, which is not a
`NoDataError` failure of the merge (neither throw site is reached). -/
theorem c6_counterexample :
    GlobalCellSelection.createNewSheet
        ⟨[], fun s => s, fun _ => none⟩
        (GlobalCellSelection.clearSelections
          [⟨"sel-1", some "Sheet1", 1, some "T1", some [1], some [⟨some "a", some "A"⟩],
            0, [(1, [("a", CellValue.num 5)])], ["A"]⟩])
        "NewSheet" =
      GlobalCreateResult.noSelections ∧
    GlobalCreateResult.noSelections ≠
      GlobalCreateResult.submitted (.error (.noData .noFormattedData)) ∧
    GlobalCreateResult.noSelections ≠
      GlobalCreateResult.submitted (.error (.noData .noValidColumns)) := by
  refine ⟨rfl, ?_, ?_⟩ <;> intro h <;> cases h

/-! ### Column-id uniqueness (C2) -/

/-- C2: the column ids produced by `convertGlobalSelectionData` are
pairwise unique for every input — each candidate id is the sanitized
table-name prefix plus the header and, on collision with the accumulated
used-id set, the first unused integer suffix is appended (to both id and
label, which the source keeps equal); the bulkData keys are exactly the
column ids. Two selections with table name `Sheet1` and header `Amount`
yield `Sheet1_Amount` and `Sheet1_Amount_1`. -/
theorem c2_column_ids_pairwise_unique :
    (∀ (formattedData : List FormattedEntry) (res : MergeResult),
        convertGlobalSelectionData formattedData = .ok res →
        (res.columns.map (fun c => c.id)).Nodup ∧
        res.bulkData.map (fun p => p.1) = res.columns.map (fun c => c.id) ∧
        ∀ c ∈ res.columns, c.label = c.id) ∧
    (convertGlobalSelectionData
        [⟨"s1", "Sheet1", some "Sheet1", 0, 0, 1, some ["Amount"], some []⟩,
         ⟨"s2", "Sheet1", some "Sheet1", 0, 0, 1, some ["Amount"], some []⟩]).toOption.map
        (fun r => r.columns.map (fun c => c.id)) =
      some ["Sheet1_Amount", "Sheet1_Amount_1"] := by
  refine ⟨?_, by rfl⟩
  · intro formattedData res h
    obtain ⟨_, hcols, hbulk, _⟩ := convert_ok_spec formattedData res h
    refine ⟨?_, ?_, ?_⟩
    · rw [hcols, List.map_map]
      exact (assignIds_ids_fresh_nodup _ _).2
    · rw [hcols, hbulk, List.map_map]
      rfl
    · intro c hc
      rw [hcols] at hc
      obtain ⟨p, _, rfl⟩ := List.mem_map.mp hc
      rfl

/-- Witness for C2 at the concrete `Sheet1`/`Amount` input: applying the
uniqueness part to the computed merge result. -/
theorem c2_witness :
    (([⟨"Sheet1_Amount", "Sheet1_Amount", "Text"⟩,
       ⟨"Sheet1_Amount_1", "Sheet1_Amount_1", "Text"⟩] : List IColumnInfo).map
      (fun c => c.id)).Nodup :=
  (c2_column_ids_pairwise_unique.1
    [⟨"s1", "Sheet1", some "Sheet1", 0, 0, 1, some ["Amount"], some []⟩,
     ⟨"s2", "Sheet1", some "Sheet1", 0, 0, 1, some ["Amount"], some []⟩]
    ⟨[⟨"Sheet1_Amount", "Sheet1_Amount", "Text"⟩,
      ⟨"Sheet1_Amount_1", "Sheet1_Amount_1", "Text"⟩],
     [("Sheet1_Amount", []), ("Sheet1_Amount_1", [])]⟩
    rfl).1

/-! ### Merge dimensions and padding (C1) -/

/-- C1 (amended): for a non-empty input in which every selection has a
valid headers array, at least one header exists across the selections, and
each selection's data has exactly `rowCount` rows (the shape
`getFormattedData` guarantees), the merge succeeds; the column count is
the sum of the header counts; every column's data sequence has length
`maxRows`, the maximum of the row counts; and each column belongs to some
selection and header such that rows at indices at or beyond that
selection's row count hold the empty string, while earlier rows hold the
cell value with the empty string substituted for absent or falsy values.
The end-to-end `Sales`/`Qty` example yields columns
`Sales_Qty`, `Sales_Qty_1` and bulkData `{Sales_Qty: [1,2,3],
Sales_Qty_1: [9,8,""]}`. -/
theorem c1_merge_dimensions_and_padding :
    (∀ formattedData : List FormattedEntry,
      formattedData ≠ [] →
      (∀ e ∈ formattedData, ∃ hs, e.headers = some hs) →
      (∀ e ∈ formattedData, ∃ rows, e.data = some rows ∧ rows.length = e.rowCount) →
      (∃ e ∈ formattedData, ∃ hs, e.headers = some hs ∧ hs ≠ []) →
      ∃ res, convertGlobalSelectionData formattedData = .ok res ∧
        res.columns.length =
          (formattedData.map (fun e => (e.headers.getD []).length)).sum ∧
        res.bulkData.length = res.columns.length ∧
        (∀ e ∈ formattedData, e.rowCount ≤ maxRowsOf formattedData) ∧
        (∃ e ∈ formattedData, maxRowsOf formattedData = e.rowCount) ∧
        (∀ p ∈ res.bulkData, (p.2 : List CellValue).length = maxRowsOf formattedData) ∧
        (∀ p ∈ res.bulkData, ∃ e ∈ formattedData, ∃ hd ∈ e.headers.getD [],
          (∀ r, e.rowCount ≤ r → r < maxRowsOf formattedData →
            (p.2 : List CellValue)[r]? = some (CellValue.str "")) ∧
          (∀ (r : Nat) (rows : List DataRow) (row : DataRow),
            e.data = some rows → rows[r]? = some row →
            (p.2 : List CellValue)[r]? = some (jsOr (JsObj.getV row hd) (.str ""))))) ∧
    (convertGlobalSelectionData
        [⟨"a", "Sales", some "Sales", 0, 3, 1, some ["Qty"],
          some [[("Qty", .num 1)], [("Qty", .num 2)], [("Qty", .num 3)]]⟩,
         ⟨"b", "Sales", some "Sales", 0, 2, 1, some ["Qty"],
          some [[("Qty", .num 9)], [("Qty", .num 8)]]⟩]).toOption.map
        (fun r => (r.columns.map (fun c => c.id), r.bulkData)) =
      some (["Sales_Qty", "Sales_Qty_1"],
            [("Sales_Qty", [.num 1, .num 2, .num 3]),
             ("Sales_Qty_1", [.num 9, .num 8, .str ""])]) := by
  refine ⟨?_, by rfl⟩
  intro fd hne hheaders hwf hsome
  obtain ⟨res, hres⟩ := (convert_ok_exists_iff fd).mpr ⟨hne, hsome⟩
  obtain ⟨_, hcols, hbulk, _⟩ := convert_ok_spec fd res hres
  have hvals : res.bulkData.map (fun q => q.2) =
      (allItems (maxRowsOf fd) fd).map (fun q => q.2) := by
    rw [hbulk, assignIds_values]
  refine ⟨res, hres, ?_, ?_, (maxRowsOf_spec fd).1, (maxRowsOf_spec fd).2 hne, ?_, ?_⟩
  · rw [hcols, List.length_map, assignIds_length, allItems_length]
  · rw [hcols, hbulk, List.length_map, assignIds_length]
  · intro p hp
    have hp2 : p.2 ∈ res.bulkData.map (fun q => q.2) := List.mem_map_of_mem _ hp
    rw [hvals] at hp2
    obtain ⟨item, hitem, hpeq⟩ := List.mem_map.mp hp2
    obtain ⟨i, e, _, hefd, hs, hhs, hd, hhd, hitemeq⟩ :=
      allItems_mem (maxRowsOf fd) fd item hitem
    rw [← hpeq, hitemeq]
    exact mkColData_length _ _ _
  · intro p hp
    have hp2 : p.2 ∈ res.bulkData.map (fun q => q.2) := List.mem_map_of_mem _ hp
    rw [hvals] at hp2
    obtain ⟨item, hitem, hpeq⟩ := List.mem_map.mp hp2
    obtain ⟨i, e, _, hefd, hs, hhs, hd, hhd, hitemeq⟩ :=
      allItems_mem (maxRowsOf fd) fd item hitem
    obtain ⟨rows0, hdata0, hlen0⟩ := hwf e hefd
    refine ⟨e, hefd, hd, by rw [hhs]; exact hhd, ?_, ?_⟩
    · intro r hr hrmax
      rw [← hpeq, hitemeq]
      rw [mkColData_getElem _ _ _ r hrmax]
      rw [hdata0]
      have hnone : rows0[r]? = none := List.getElem?_eq_none (by omega)
      show some (match rows0[r]? with
            | some row => jsOr (JsObj.getV row hd) (CellValue.str "")
            | none => CellValue.str "") = some (CellValue.str "")
      rw [hnone]
    · intro r rows row hrows hrow
      have hrlen : r < rows.length := by
        by_contra hge
        push_neg at hge
        rw [List.getElem?_eq_none hge] at hrow
        cases hrow
      have h1 : rows = rows0 := by
        rw [hrows] at hdata0
        injection hdata0
      have h3 : rows.length = e.rowCount := by
        rw [h1, hlen0]
      have hrmax : r < maxRowsOf fd := by
        have h2 := (maxRowsOf_spec fd).1 e hefd
        omega
      rw [← hpeq, hitemeq]
      rw [mkColData_getElem _ _ _ r hrmax]
      rw [hrows]
      show some (match rows[r]? with
            | some row => jsOr (JsObj.getV row hd) (CellValue.str "")
            | none => CellValue.str "") =
        some (jsOr (JsObj.getV row hd) (CellValue.str ""))
      rw [hrow]

/-- Counterexample to C1 as stated: a single selection whose headers array
is valid but empty is a non-empty input with valid headers arrays, yet the
merge throws the empty-columns `NoDataError` instead of returning a
zero-column grid. -/
theorem c1_counterexample :
    convertGlobalSelectionData [⟨"x", "S", some "T", 0, 0, 0, some [], some []⟩] =
      .error NoDataError.noValidColumns := by
  rfl

/-- Witness for C1 at the `Sales`/`Qty` example: the merge succeeds and
its column count is 2. -/
theorem c1_witness :
    (convertGlobalSelectionData
        [⟨"a", "Sales", some "Sales", 0, 3, 1, some ["Qty"],
          some [[("Qty", .num 1)], [("Qty", .num 2)], [("Qty", .num 3)]]⟩,
         ⟨"b", "Sales", some "Sales", 0, 2, 1, some ["Qty"],
          some [[("Qty", .num 9)], [("Qty", .num 8)]]⟩]).toOption.map
      (fun r => r.columns.length) = some 2 := by
  obtain ⟨res, hres, hcount, _⟩ := c1_merge_dimensions_and_padding.1
    [⟨"a", "Sales", some "Sales", 0, 3, 1, some ["Qty"],
      some [[("Qty", .num 1)], [("Qty", .num 2)], [("Qty", .num 3)]]⟩,
     ⟨"b", "Sales", some "Sales", 0, 2, 1, some ["Qty"],
      some [[("Qty", .num 9)], [("Qty", .num 8)]]⟩]
    (by decide)
    (by
      intro e he
      simp only [List.mem_cons, List.not_mem_nil, or_false] at he
      rcases he with rfl | rfl
      · exact ⟨["Qty"], rfl⟩
      · exact ⟨["Qty"], rfl⟩)
    (by
      intro e he
      simp only [List.mem_cons, List.not_mem_nil, or_false] at he
      rcases he with rfl | rfl
      · exact ⟨[[("Qty", .num 1)], [("Qty", .num 2)], [("Qty", .num 3)]], rfl, rfl⟩
      · exact ⟨[[("Qty", .num 9)], [("Qty", .num 8)]], rfl, rfl⟩)
    (by
      refine ⟨⟨"a", "Sales", some "Sales", 0, 3, 1, some ["Qty"],
        some [[("Qty", .num 1)], [("Qty", .num 2)], [("Qty", .num 3)]]⟩,
        by simp, ["Qty"], rfl, by simp⟩)
  rw [hres]
  show some res.columns.length = some 2
  rw [hcount]
  rfl

/-! ### Formatting robustness (C8) -/

theorem getFormattedData_append (xs ys : List (Option IGlobalSelectionEntry)) :
    getFormattedData (xs ++ ys) = getFormattedData xs ++ getFormattedData ys := by
  simp [getFormattedData, List.filter_append, List.map_append, List.filterMap_append]

theorem getFormattedData_cons (oe : Option IGlobalSelectionEntry)
    (ys : List (Option IGlobalSelectionEntry)) :
    getFormattedData (oe :: ys) = (formatEntry oe).toList ++ getFormattedData ys := by
  cases oe with
  | none => simp [getFormattedData, formatEntry]
  | some e =>
    cases hfe : formatEntry (some e) with
    | none => simp [getFormattedData, List.filter_cons, List.filterMap_cons, hfe]
    | some fe => simp [getFormattedData, List.filter_cons, List.filterMap_cons, hfe]

theorem formatEntry_eq_none_of_invalid (oe : Option IGlobalSelectionEntry)
    (h : ∀ e, oe = some e → entryValid e = false) : formatEntry oe = none := by
  cases oe with
  | none => rfl
  | some e => simp [formatEntry, h e rfl]

theorem extractField_skip (cellData : List (Nat × DataRow)) (rowId : Nat)
    (row : DataRow) (f : ViewFieldRec) (h : f.colId = none ∨ f.label = none) :
    extractField cellData rowId row f = row := by
  obtain ⟨fc, fl⟩ := f
  rcases h with h | h
  · have h' : fc = none := h
    subst h'
    cases fl <;> rfl
  · have h' : fl = none := h
    subst h'
    cases fc <;> rfl

/-- C8: formatting is total and skip-based — a null or invalid entry
(missing table id, sheet name, row ids or fields) is dropped without
affecting the formatting of the surrounding entries, a valid entry is
always formatted, and a field whose extraction fails is skipped without
affecting the other fields of its row. -/
theorem c8_formatting_never_aborts :
    (∀ (xs ys : List (Option IGlobalSelectionEntry)) (oe : Option IGlobalSelectionEntry),
        (∀ e, oe = some e → entryValid e = false) →
        getFormattedData (xs ++ oe :: ys) = getFormattedData (xs ++ ys)) ∧
    (∀ (xs ys : List (Option IGlobalSelectionEntry)) (e : IGlobalSelectionEntry),
        entryValid e = true →
        ∃ fe, getFormattedData (xs ++ some e :: ys) =
          getFormattedData xs ++ fe :: getFormattedData ys) ∧
    (∀ (cellData : List (Nat × DataRow)) (rowId : Nat)
        (fs1 fs2 : List ViewFieldRec) (f : ViewFieldRec),
        f.colId = none ∨ f.label = none →
        extractRow cellData rowId (fs1 ++ f :: fs2) =
          extractRow cellData rowId (fs1 ++ fs2)) := by
  refine ⟨?_, ?_, ?_⟩
  · intro xs ys oe hbad
    rw [getFormattedData_append, getFormattedData_append, getFormattedData_cons,
      formatEntry_eq_none_of_invalid oe hbad]
    rfl
  · intro xs ys e hvalid
    cases hfe : formatEntry (some e) with
    | none => simp [formatEntry, hvalid] at hfe
    | some fe =>
      refine ⟨fe, ?_⟩
      rw [getFormattedData_append, getFormattedData_cons, hfe]
      rfl
  · intro cellData rowId fs1 fs2 f hf
    unfold extractRow
    rw [List.foldl_append, List.foldl_append, List.foldl_cons,
      extractField_skip cellData rowId _ f hf]

/-- Witness for C8 at a concrete input: a null entry between two other
entries (one invalid, one valid) is skipped, and the valid entry is still
formatted. -/
theorem c8_witness :
    getFormattedData
        [some ⟨"good", some "S", 1, some "T", some [], some [], 0, [], []⟩, none] =
      getFormattedData
        [some ⟨"good", some "S", 1, some "T", some [], some [], 0, [], []⟩] ∧
    (∃ fe, getFormattedData
        ([] ++ some ⟨"good", some "S", 1, some "T", some [], some [], 0, [], []⟩ :: []) =
      getFormattedData [] ++ fe :: getFormattedData []) := by
  constructor
  · have h := c8_formatting_never_aborts.1
      [some ⟨"good", some "S", 1, some "T", some [], some [], 0, [], []⟩] [] none
      (by intro e he; cases he)
    simpa using h
  · exact c8_formatting_never_aborts.2.1 [] []
      ⟨"good", some "S", 1, some "T", some [], some [], 0, [], []⟩ (by decide)

/-! ### Duplicate header labels within one selection (C10) -/

theorem extractField_get_of_other_label (cellData : List (Nat × DataRow)) (rowId : Nat)
    (row : DataRow) (g : ViewFieldRec) (hd : String) (h : g.label ≠ some hd) :
    JsObj.get (extractField cellData rowId row g) hd = JsObj.get row hd := by
  obtain ⟨gc, gl⟩ := g
  cases gc with
  | none => rfl
  | some c =>
    cases gl with
    | none => rfl
    | some l =>
      have hne : l ≠ hd := by
        intro hcontr
        exact h (by rw [hcontr])
      show JsObj.get (JsObj.set row l _) hd = JsObj.get row hd
      exact JsObj.get_set_ne row l hd _ hne

theorem foldl_extractField_get_of_no_label (cellData : List (Nat × DataRow)) (rowId : Nat)
    (hd : String) : ∀ (rest : List ViewFieldRec) (row : DataRow),
    (∀ g ∈ rest, g.label ≠ some hd) →
    JsObj.get (rest.foldl (extractField cellData rowId) row) hd = JsObj.get row hd := by
  intro rest
  induction rest with
  | nil => intro row _; rfl
  | cons g t ih =>
    intro row hall
    rw [List.foldl_cons, ih _ (fun x hx => hall x (List.mem_cons_of_mem g hx))]
    exact extractField_get_of_other_label cellData rowId row g hd
      (hall g (List.mem_cons_self g t))

/-- Last-write-wins: the value stored under header `hd` in a formatted row
is the value extracted from the last field labelled `hd`. -/
theorem extractRow_get_last_label (cellData : List (Nat × DataRow)) (rowId : Nat)
    (init rest : List ViewFieldRec) (f : ViewFieldRec) (c hd : String)
    (hc : f.colId = some c) (hl : f.label = some hd)
    (hrest : ∀ g ∈ rest, g.label ≠ some hd) :
    JsObj.get (extractRow cellData rowId (init ++ f :: rest)) hd =
      some (jsOr (JsObj.getV ((cellData.lookup rowId).getD []) c) .null) := by
  unfold extractRow
  rw [List.foldl_append, List.foldl_cons,
    foldl_extractField_get_of_no_label cellData rowId hd rest _ hrest]
  obtain ⟨fc, fl⟩ := f
  have hc' : fc = some c := hc
  have hl' : fl = some hd := hl
  subst hc'
  subst hl'
  show JsObj.get (JsObj.set _ hd _) hd = _
  exact JsObj.get_set_self _ hd _

theorem maxRowsOf_single (e : FormattedEntry) : maxRowsOf [e] = e.rowCount := by
  simp only [maxRowsOf, List.map_cons, List.map_nil, List.foldl_cons, List.foldl_nil]
  omega

theorem allItems_single (maxRows : Nat) (fe : FormattedEntry) :
    allItems maxRows [fe] = entryItems maxRows (0, fe) := by
  simp [allItems, List.enum]

/-- C10 (implicit claim): when one selection holds two or more fields with
the same header label, the merge still emits one column per header
occurrence, with pairwise distinct (suffixed) ids, but the columns for
equal header occurrences carry identical data: at every row it is the
value extracted from the last field carrying that label (the row object is
keyed by header string, so earlier same-header values are overwritten
before the merge reads them). -/
theorem c10_duplicate_headers_share_last_value :
    ∀ (entry : IGlobalSelectionEntry) (fs init rest : List ViewFieldRec)
      (f : ViewFieldRec) (hd c : String),
      entryValid entry = true →
      entry.fields = some fs →
      fs = init ++ f :: rest →
      f.colId = some c →
      f.label = some hd →
      (∀ g ∈ rest, g.label ≠ some hd) →
      entry.headers = fs.map (fun g => g.label.getD "") →
      ∃ fe res,
        getFormattedData [some entry] = [fe] ∧
        convertGlobalSelectionData [fe] = .ok res ∧
        res.columns.length = fs.length ∧
        (res.columns.map (fun col => col.id)).Nodup ∧
        (∀ j1 j2 : Nat, entry.headers[j1]? = some hd → entry.headers[j2]? = some hd →
          (res.bulkData.map (fun p => p.2))[j1]? = (res.bulkData.map (fun p => p.2))[j2]?) ∧
        (∀ j ri rid : Nat, entry.headers[j]? = some hd →
          (entry.rowIds.getD [])[ri]? = some rid →
          ∃ vals : List CellValue, (res.bulkData.map (fun p => p.2))[j]? = some vals ∧
            vals[ri]? = some (jsOr (jsOr
              (JsObj.getV ((entry.cellData.lookup rid).getD []) c) .null) (.str ""))) := by
  intro entry fs init rest f hd c hvalid hfs hsplit hc hl hrest hheaders
  have hfe : formatEntry (some entry) = some
      { id := entry.id, sheet := entry.sheetName.getD "", table := entry.tableId,
        timestamp := entry.timestamp, rowCount := (entry.rowIds.getD []).length,
        columnCount := fs.length, headers := some entry.headers,
        data := some ((entry.rowIds.getD []).map
          (fun rid => extractRow entry.cellData rid fs)) } := by
    simp [formatEntry, hvalid, hfs]
  set fe : FormattedEntry :=
    { id := entry.id, sheet := entry.sheetName.getD "", table := entry.tableId,
      timestamp := entry.timestamp, rowCount := (entry.rowIds.getD []).length,
      columnCount := fs.length, headers := some entry.headers,
      data := some ((entry.rowIds.getD []).map
        (fun rid => extractRow entry.cellData rid fs)) } with hfedef
  have hformatted : getFormattedData [some entry] = [fe] := by
    rw [show ([some entry] : List (Option IGlobalSelectionEntry)) = some entry :: [] from rfl,
      getFormattedData_cons, hfe]
    rfl
  have hheadne : entry.headers ≠ [] := by
    rw [hheaders, hsplit]
    simp
  obtain ⟨res, hres⟩ := (convert_ok_exists_iff [fe]).mpr
    ⟨by simp, fe, by simp, entry.headers, rfl, hheadne⟩
  obtain ⟨_, hcols, hbulk, _⟩ := convert_ok_spec [fe] res hres
  have hitems : allItems (maxRowsOf [fe]) [fe] =
      entry.headers.map (fun hh =>
        (pfxOf 0 fe ++ hh, mkColData (maxRowsOf [fe]) fe hh)) := by
    rw [allItems_single]
    simp [entryItems]
  have hvals : res.bulkData.map (fun p => p.2) =
      entry.headers.map (fun hh => mkColData (maxRowsOf [fe]) fe hh) := by
    rw [hbulk, assignIds_values, hitems, List.map_map]
    rfl
  refine ⟨fe, res, hformatted, hres, ?_, ?_, ?_, ?_⟩
  · rw [hcols, List.length_map, assignIds_length, hitems, List.length_map,
      hheaders, List.length_map]
  · rw [hcols, List.map_map]
    exact (assignIds_ids_fresh_nodup _ _).2
  · intro j1 j2 hj1 hj2
    rw [hvals, List.getElem?_map, List.getElem?_map, hj1, hj2]
  · intro j ri rid hj hrid
    have hri : ri < (entry.rowIds.getD []).length := by
      by_contra hge
      push_neg at hge
      rw [List.getElem?_eq_none hge] at hrid
      cases hrid
    have hrimax : ri < maxRowsOf [fe] := by
      rw [maxRowsOf_single]
      exact hri
    refine ⟨mkColData (maxRowsOf [fe]) fe hd, ?_, ?_⟩
    · rw [hvals, List.getElem?_map, hj]
      rfl
    · rw [mkColData_getElem _ _ _ ri hrimax]
      have hdata : fe.data = some ((entry.rowIds.getD []).map
          (fun r => extractRow entry.cellData r fs)) := rfl
      rw [hdata]
      have hrow : ((entry.rowIds.getD []).map
          (fun r => extractRow entry.cellData r fs))[ri]? =
          some (extractRow entry.cellData rid fs) := by
        rw [List.getElem?_map, hrid]
        rfl
      show some (match ((entry.rowIds.getD []).map
            (fun r => extractRow entry.cellData r fs))[ri]? with
          | some row => jsOr (JsObj.getV row hd) (CellValue.str "")
          | none => CellValue.str "") = _
      rw [hrow]
      have hlast := extractRow_get_last_label entry.cellData rid init rest f c hd
        hc hl hrest
      rw [← hsplit] at hlast
      show some (jsOr (JsObj.getV (extractRow entry.cellData rid fs) hd)
        (CellValue.str "")) = _
      rw [JsObj.getV, hlast]
      rfl

/-- Witness for C10 at a concrete input: one selection with two fields both
labelled `H` (column ids `a` and `b`, row values 1 and 2) formats to a row
`{H: 2}` and merges into columns `T_H`, `T_H_1` whose data are identical —
both `[2]`, the last same-labelled field's value. -/
theorem c10_witness :
    getFormattedData
        [some ⟨"e1", some "S", 1, some "T", some [1],
          some [⟨some "a", some "H"⟩, ⟨some "b", some "H"⟩], 0,
          [(1, [("a", CellValue.num 1), ("b", CellValue.num 2)])], ["H", "H"]⟩] =
      [⟨"e1", "S", some "T", 0, 1, 2, some ["H", "H"],
        some [[("rowId", CellValue.num 1), ("H", CellValue.num 2)]]⟩] ∧
    convertGlobalSelectionData
        [⟨"e1", "S", some "T", 0, 1, 2, some ["H", "H"],
          some [[("rowId", CellValue.num 1), ("H", CellValue.num 2)]]⟩] =
      .ok ⟨[⟨"T_H", "T_H", "Text"⟩, ⟨"T_H_1", "T_H_1", "Text"⟩],
           [("T_H", [CellValue.num 2]), ("T_H_1", [CellValue.num 2])]⟩ ∧
    (([("T_H", [CellValue.num 2]), ("T_H_1", [CellValue.num 2])] : IBulkData).map
        (fun p => p.2))[0]? =
      (([("T_H", [CellValue.num 2]), ("T_H_1", [CellValue.num 2])] : IBulkData).map
        (fun p => p.2))[1]? := by
  obtain ⟨fe, res, h1, h2, _, _, h5, _⟩ := c10_duplicate_headers_share_last_value
    ⟨"e1", some "S", 1, some "T", some [1],
      some [⟨some "a", some "H"⟩, ⟨some "b", some "H"⟩], 0,
      [(1, [("a", CellValue.num 1), ("b", CellValue.num 2)])], ["H", "H"]⟩
    [⟨some "a", some "H"⟩, ⟨some "b", some "H"⟩]
    [⟨some "a", some "H"⟩] [] ⟨some "b", some "H"⟩ "H" "b"
    (by decide) rfl rfl rfl rfl (by simp) rfl
  have hcomp1 : getFormattedData
      [some ⟨"e1", some "S", 1, some "T", some [1],
        some [⟨some "a", some "H"⟩, ⟨some "b", some "H"⟩], 0,
        [(1, [("a", CellValue.num 1), ("b", CellValue.num 2)])], ["H", "H"]⟩] =
      [⟨"e1", "S", some "T", 0, 1, 2, some ["H", "H"],
        some [[("rowId", CellValue.num 1), ("H", CellValue.num 2)]]⟩] := rfl
  have hfe : fe = ⟨"e1", "S", some "T", 0, 1, 2, some ["H", "H"],
      some [[("rowId", CellValue.num 1), ("H", CellValue.num 2)]]⟩ := by
    have := h1.symm.trans hcomp1
    injection this
  subst hfe
  have hcomp2 : convertGlobalSelectionData
      [⟨"e1", "S", some "T", 0, 1, 2, some ["H", "H"],
        some [[("rowId", CellValue.num 1), ("H", CellValue.num 2)]]⟩] =
      .ok ⟨[⟨"T_H", "T_H", "Text"⟩, ⟨"T_H_1", "T_H_1", "Text"⟩],
           [("T_H", [CellValue.num 2]), ("T_H_1", [CellValue.num 2])]⟩ := rfl
  have hres : res = ⟨[⟨"T_H", "T_H", "Text"⟩, ⟨"T_H_1", "T_H_1", "Text"⟩],
      [("T_H", [CellValue.num 2]), ("T_H_1", [CellValue.num 2])]⟩ := by
    have := h2.symm.trans hcomp2
    injection this
  subst hres
  exact ⟨hcomp1, hcomp2, h5 0 1 rfl rfl⟩
